import Mathlib

/-!
Verification of the typed GPU resource core of luminance-rs: the fixed-size
`Buffer` resource (src/buffer.rs) and the `ColorSlot` / `DepthSlot`
attachment-composition layer (luminance/src/framebuffer.rs).

The Rust code is shallowly embedded:

* `HasBuffer` (a Rust trait whose concrete implementations live in external
  backend crates) becomes the structure `HasBufferImpl`: a record of the five
  capability functions.  Rust mutation through `&ABuffer` becomes explicit
  state passing (`write_whole : β → List α → β`).  Note that in the source the
  trait method `write_whole` returns `()` — it has no error channel.
* `mem::size_of::<T>()` becomes an explicit parameter `s : Nat` (Rust allows
  zero-sized types, so `s = 0` is a legal value).
* `Buffer<C, A, T>` becomes `Buffer β`: the `repr : C::ABuffer` field and the
  `size : usize` field; the phantom parameters carry no runtime data.
* The slot impls of framebuffer.rs are type-indexed (unit, a bare pixel type,
  and tuples of arity 2..16 generated by `impl_color_slot_tuple`); a slot is
  embedded as its ordered list of pixel types, arity 0 being the unit impl,
  arity 1 the bare impl, arities 2..16 the macro-generated tuple impls, and
  the tuple result `(t1, …, tn)` as the list of components in order.
-/

set_option autoImplicit false

namespace Luminance

/-- Buffer errors (src/buffer.rs, `enum BufferError`): `Overflow` and
`TooManyValues`. -/
inductive BufferError where
  | Overflow : BufferError
  | TooManyValues : BufferError
deriving DecidableEq, Repr

/-- Embedding of the `HasBuffer` trait (src/buffer.rs): the backend capability
record.  `β` plays the role of the associated type `ABuffer` and `α` the
element type `T`.  Rust mutation through a shared reference to the backend
buffer is modelled by state passing: `write_whole` and `write` return the
updated `ABuffer` value.  Faithful to the trait's signatures, `write_whole`
returns no error (`fn write_whole<T>(buffer: &Self::ABuffer, values: &Vec<T>);`
returns `()`), `write` returns `Result<(), BufferError>`, and `read` returns
`Option<&T>`. -/
structure HasBufferImpl (α : Type) (β : Type) where
  new : Nat → β
  write_whole : β → List α → β
  write : β → α → Nat → Except BufferError β
  read_whole : β → List α
  read : β → Nat → Option α

/-- Embedding of `struct Buffer<C, A, T>` (src/buffer.rs): a backend
representation `repr : C::ABuffer` plus the element count `size : usize`.
The phantom fields `_a`, `_t` carry no data and are dropped. -/
structure Buffer (β : Type) where
  repr : β
  size : Nat

/-- `Buffer::new(_: A, size: u32)` (src/buffer.rs lines 51-55): requests
`size * mem::size_of::<T>()` units of backend storage via `C::new` and records
`size` as the element count.  `s` is `mem::size_of::<T>()`; the unused first
argument mirrors the ignored `_: A` marker.  The function is total: it returns
a `Buffer`, not a `Result`. -/
def Buffer.new {α β A : Type} (impl : HasBufferImpl α β) (s : Nat) (_ : A)
    (size : Nat) : Buffer β :=
  { repr := impl.new (size * s), size := size }

/-- `Buffer::get(&self, i: u32)` (src/buffer.rs lines 57-59): reads from the
backend at byte offset `i as usize * mem::size_of::<T>()`. -/
def Buffer.get {α β : Type} (impl : HasBufferImpl α β) (s : Nat) (b : Buffer β)
    (i : Nat) : Option α :=
  impl.read b.repr (i * s)

/-- `Buffer::clear(&self, x: T)` (src/buffer.rs lines 62-67): one call to
`C::write_whole` with `vec![x; self.size]`.  The backend mutation is modelled
by returning the buffer with the updated representation. -/
def Buffer.clear {α β : Type} (impl : HasBufferImpl α β) (b : Buffer β)
    (x : α) : Buffer β :=
  { repr := impl.write_whole b.repr (List.replicate b.size x), size := b.size }

/-- `impl Index<u32> for Buffer` (src/buffer.rs lines 69-75):
`self.get(i).unwrap()`.  The `unwrap` panic on `None` is modelled as
`Except.error ()`: `Except.ok v` is a normal return of `v`, `Except.error ()`
is the fatal panic. -/
def Buffer.index {α β : Type} (impl : HasBufferImpl α β) (s : Nat)
    (b : Buffer β) (i : Nat) : Except Unit α :=
  match b.get impl s i with
  | some v => Except.ok v
  | none => Except.error ()

/-! ### A canonical backend

Concrete `HasBuffer` implementations live in backend crates outside this
repository; only the trait and its documented contract are in src/.  The
model below realizes that contract. -/

/-- Modelled from the spec: a concrete backend buffer for the missing
`HasBuffer` implementations (the spec's `BufferBackend capability`, §6; no
implementation is in the repository).  A region of `byteSize` allocated units
together with the value readable at each offset; a fresh region holds
arbitrary (default) contents. -/
structure SpecBuf (α : Type) where
  byteSize : Nat
  data : Nat → α

/-- Modelled from the spec: `allocate_buffer(byte_size) -> BufferHandle` —
`HasBuffer::new(size)` allocates a region of `size` units with unspecified
(default) contents. -/
def SpecBuf.new {α : Type} (default : α) (n : Nat) : SpecBuf α :=
  { byteSize := n, data := fun _ => default }

/-- Modelled from the spec: `HasBuffer::read(buffer, offset)` returns `None`
exactly when the offset does not lie in the allocated region (src/buffer.rs
doc of `read`: None if you provide an offset that does not lie in the GPU
allocated region). -/
def SpecBuf.read {α : Type} (b : SpecBuf α) (off : Nat) : Option α :=
  if off < b.byteSize then some (b.data off) else none

/-- Store `x` at offset `off` of the region. -/
def SpecBuf.writeAt {α : Type} (b : SpecBuf α) (off : Nat) (x : α) :
    SpecBuf α :=
  { byteSize := b.byteSize, data := fun o => if o = off then x else b.data o }

/-- Store the values of `vs` at offsets `j * s`, `(j+1) * s`, ... -/
def SpecBuf.writeSeq {α : Type} (s : Nat) (b : SpecBuf α) (j : Nat) :
    List α → SpecBuf α
  | [] => b
  | x :: xs => SpecBuf.writeSeq s (b.writeAt (j * s) x) (j + 1) xs

/-- Modelled from the spec: `HasBuffer::write_whole(buffer, values)` — the
k-th value is stored at offset `k * s` where `s` is the element byte size.
Faithful to the trait signature, the operation returns no error. -/
def SpecBuf.write_whole {α : Type} (s : Nat) (b : SpecBuf α)
    (values : List α) : SpecBuf α :=
  SpecBuf.writeSeq s b 0 values

/-- Modelled from the spec: `HasBuffer::write(buffer, x, offset)` returns
`Err(BufferError::Overflow)` exactly when the offset does not lie in the
allocated region (src/buffer.rs doc of `write`). -/
def SpecBuf.write {α : Type} (b : SpecBuf α) (x : α) (off : Nat) :
    Except BufferError (SpecBuf α) :=
  if off < b.byteSize then Except.ok (b.writeAt off x)
  else Except.error BufferError.Overflow

/-- Modelled from the spec: `HasBuffer::read_whole(buffer)` returns the
sequence of elements stored at offsets `0, s, 2*s, ...` filling the region. -/
def SpecBuf.read_whole {α : Type} (s : Nat) (b : SpecBuf α) : List α :=
  (List.range (b.byteSize / s)).map (fun j => b.data (j * s))

/-- The canonical backend as a `HasBufferImpl` record. -/
def specImpl {α : Type} (default : α) (s : Nat) :
    HasBufferImpl α (SpecBuf α) where
  new := SpecBuf.new default
  write_whole := SpecBuf.write_whole s
  write := SpecBuf.write
  read_whole := SpecBuf.read_whole s
  read := SpecBuf.read

/-- The canonical backend satisfies the documented `read` contract: on a fresh
buffer, `read` returns `None` exactly for offsets outside the allocated
region. -/
theorem specImpl_read_contract {α : Type} (default : α) (s : Nat) (n : Nat)
    (off : Nat) :
    (specImpl default s).read ((specImpl default s).new n) off = none ↔
      n ≤ off := by
  simp [specImpl, SpecBuf.read, SpecBuf.new, Nat.not_lt]

/-! ### Pixel formats and slot composition (luminance/src/framebuffer.rs)

`PixelFormat` and the pixel-type traits live in luminance/src/pixel.rs, which
is not part of the repository snapshot; they are modelled from the spec. -/

/-- Modelled from the spec: `PixelFormatDescriptor` (§3) — an opaque
enumerated identifier plus the capability flags `is_color_renderable` and
`is_depth_capable` (the `PixelFormat` type of luminance/src/pixel.rs, absent
from the snapshot). -/
structure PixelFormat where
  id : Nat
  is_color_renderable : Bool
  is_depth_capable : Bool
deriving DecidableEq, Repr

/-- Modelled from the spec: a pixel type `P` as used by the slot impls — what
matters of `P` observationally is its associated constant `P::PIXEL_FORMAT`
(from the `Pixel` trait of luminance/src/pixel.rs, absent from the
snapshot). -/
structure PixelType where
  PIXEL_FORMAT : PixelFormat
deriving DecidableEq, Repr

/-- Embedding of the `ReifyTexture<C, L, D, P>` capability (framebuffer.rs
lines 215-223): `reify_texture(ctx: &mut C, size, mipmaps, state: &mut Self)
-> Texture`.  Both `ctx` and `state` are mutable, so the model returns the
updated context and state along with the texture.  The Rust call is selected
by the pixel type `P`; the model passes the pixel type as an argument. -/
structure ReifyCap (Ctx St Tex Size : Type) where
  reify_texture : Ctx → Size → Nat → St → PixelType → Ctx × St × Tex

/-- Embedding of `ColorSlot::reify_textures` across the type-indexed impls
(framebuffer.rs): the slot is its ordered list of pixel types.
`[]` is the unit impl (lines 90-102), whose body returns `()` touching
nothing; a non-empty list evaluates one capability call per component left to
right, threading `ctx` and `state`, exactly as the bare impl (lines 104-123)
and the macro-generated tuple bodies
`( <I as ReifyTexture<..>>::reify_texture(ctx, size, mipmaps, state), ... )`
(lines 139-146) do.  The tuple result is the list of components in order. -/
def reify_textures {Ctx St Tex Size : Type} (cap : ReifyCap Ctx St Tex Size)
    (ctx : Ctx) (size : Size) (mipmaps : Nat) (st : St) :
    List PixelType → Ctx × St × List Tex
  | [] => (ctx, st, [])
  | p :: ps =>
    let r1 := cap.reify_texture ctx size mipmaps st p
    let r2 := reify_textures cap r1.1 size mipmaps r1.2.1 ps
    (r2.1, r2.2.1, r1.2.2 :: r2.2.2)

/-- Embedding of the `COLOR_FORMATS` associated constant across the impls:
`&[]` for the unit impl (line 97), `&[Self::PIXEL_FORMAT]` for the bare pixel
impl (line 113), `&[$pf::PIXEL_FORMAT, ...]` for every tuple impl
(line 137). -/
def COLOR_FORMATS : List PixelType → List PixelFormat
  | [] => []
  | [p] => [p.PIXEL_FORMAT]
  | ps => ps.map (fun p => p.PIXEL_FORMAT)

/-- Embedding of `DepthSlot::DEPTH_FORMAT`: `None` for the unit impl
(line 187), `Some(Self::PIXEL_FORMAT)` for a depth pixel type (line 203). -/
def DEPTH_FORMAT : Option PixelType → Option PixelFormat
  | none => none
  | some p => some p.PIXEL_FORMAT

/-- Embedding of `DepthSlot::reify_texture`: the unit impl (lines 189-191)
returns `()` touching nothing — modelled as `none` with `ctx` and `state`
unchanged; the depth-pixel impl (lines 205-212) makes one capability call. -/
def depth_reify_texture {Ctx St Tex Size : Type}
    (cap : ReifyCap Ctx St Tex Size) (ctx : Ctx) (size : Size) (mipmaps : Nat)
    (st : St) : Option PixelType → Ctx × St × Option Tex
  | none => (ctx, st, none)
  | some p =>
    let r := cap.reify_texture ctx size mipmaps st p
    (r.1, r.2.1, some r.2.2)

/-- Instrumented capability: behaves as `cap` and additionally logs, in call
order, the pixel type of every `reify_texture` invocation.  Used to make "the
capability is invoked once per format, in list order" observable. -/
def traceCap {Ctx St Tex Size : Type} (cap : ReifyCap Ctx St Tex Size) :
    ReifyCap Ctx (St × List PixelType) Tex Size where
  reify_texture := fun ctx size mm st p =>
    let r := cap.reify_texture ctx size mm st.1 p
    (r.1, (r.2.1, st.2 ++ [p]), r.2.2)

/-- One step of the tracing wrapper: same outputs as `cap`, log extended by
the requested pixel type. -/
theorem traceCap_apply {Ctx St Tex Size : Type}
    (cap : ReifyCap Ctx St Tex Size) (ctx : Ctx) (size : Size) (mm : Nat)
    (st : St) (log : List PixelType) (p : PixelType) :
    (traceCap cap).reify_texture ctx size mm (st, log) p =
      ((cap.reify_texture ctx size mm st p).1,
        ((cap.reify_texture ctx size mm st p).2.1, log ++ [p]),
        (cap.reify_texture ctx size mm st p).2.2) := rfl

/-- Running `reify_textures` under the tracing wrapper computes the same
contexts, states and textures as the plain run and appends exactly the format
list to the log: one capability call per format, in list order. -/
theorem reify_textures_traceCap {Ctx St Tex Size : Type}
    (cap : ReifyCap Ctx St Tex Size) (ctx : Ctx) (size : Size) (mm : Nat)
    (st : St) (log : List PixelType) (ps : List PixelType) :
    reify_textures (traceCap cap) ctx size mm (st, log) ps =
      ((reify_textures cap ctx size mm st ps).1,
        ((reify_textures cap ctx size mm st ps).2.1, log ++ ps),
        (reify_textures cap ctx size mm st ps).2.2) := by
  induction ps generalizing ctx st log with
  | nil => simp [reify_textures]
  | cons p ps ih =>
    simp only [reify_textures, traceCap_apply, ih]
    simp

/-- `reify_textures` produces one texture per format. -/
theorem reify_textures_length {Ctx St Tex Size : Type}
    (cap : ReifyCap Ctx St Tex Size) (ctx : Ctx) (size : Size) (mm : Nat)
    (st : St) (ps : List PixelType) :
    (reify_textures cap ctx size mm st ps).2.2.length = ps.length := by
  induction ps generalizing ctx st with
  | nil => simp [reify_textures]
  | cons p ps ih => simp [reify_textures, ih]

/-- The i-th texture returned by `reify_textures` is the output of the
capability call made for the i-th format, in the context and state reached
after processing the first i formats. -/
theorem reify_textures_get {Ctx St Tex Size : Type}
    (cap : ReifyCap Ctx St Tex Size) (ctx : Ctx) (size : Size) (mm : Nat)
    (st : St) (ps : List PixelType) (i : Nat) (h : i < ps.length)
    (h2 : i < (reify_textures cap ctx size mm st ps).2.2.length) :
    (reify_textures cap ctx size mm st ps).2.2.get ⟨i, h2⟩ =
      (cap.reify_texture
        (reify_textures cap ctx size mm st (ps.take i)).1 size mm
        (reify_textures cap ctx size mm st (ps.take i)).2.1
        (ps.get ⟨i, h⟩)).2.2 := by
  induction ps generalizing ctx st i with
  | nil => exact absurd h (Nat.not_lt_zero i)
  | cons p ps ih =>
    cases i with
    | zero => simp [reify_textures]
    | succ i =>
      have hlen : i < ps.length := Nat.lt_of_succ_lt_succ h
      have hlen2 :
          i < (reify_textures cap (cap.reify_texture ctx size mm st p).1
            size mm (cap.reify_texture ctx size mm st p).2.1 ps).2.2.length := by
        rw [reify_textures_length]
        exact hlen
      simp only [reify_textures, List.get, List.take]
      exact ih _ _ i hlen hlen2

/-! ### Helper lemmas -/

/-- `writeSeq` never changes the size of the allocated region. -/
theorem SpecBuf.writeSeq_byteSize {α : Type} (s : Nat) (b : SpecBuf α)
    (j : Nat) (vs : List α) :
    (SpecBuf.writeSeq s b j vs).byteSize = b.byteSize := by
  induction vs generalizing b j with
  | nil => rfl
  | cons x xs ih => simp [SpecBuf.writeSeq, ih, SpecBuf.writeAt]

/-- After writing `m` copies of `x`, every offset holds either its old value
or `x`. -/
theorem SpecBuf.writeSeq_replicate_mem {α : Type} (s : Nat) (x : α) (m : Nat)
    (b : SpecBuf α) (j : Nat) (o : Nat) :
    (SpecBuf.writeSeq s b j (List.replicate m x)).data o = b.data o ∨
      (SpecBuf.writeSeq s b j (List.replicate m x)).data o = x := by
  induction m generalizing b j with
  | zero => exact Or.inl rfl
  | succ m ih =>
    rcases ih (b.writeAt (j * s) x) (j + 1) with h | h
    · by_cases ho : o = j * s
      · right
        rw [List.replicate_succ, SpecBuf.writeSeq, h, SpecBuf.writeAt, ho]
        simp
      · left
        rw [List.replicate_succ, SpecBuf.writeSeq, h, SpecBuf.writeAt]
        simp [ho]
    · right
      rw [List.replicate_succ, SpecBuf.writeSeq, h]

/-- After writing `m` copies of `x` at offsets `j*s, (j+1)*s, ...`, the offset
`(j+k)*s` holds `x` for every `k < m`. -/
theorem SpecBuf.writeSeq_replicate_data {α : Type} (s : Nat) (x : α) (m : Nat)
    (b : SpecBuf α) (j : Nat) (k : Nat) (hk : k < m) :
    (SpecBuf.writeSeq s b j (List.replicate m x)).data ((j + k) * s) = x := by
  induction m generalizing b j k with
  | zero => exact absurd hk (Nat.not_lt_zero k)
  | succ m ih =>
    rw [List.replicate_succ, SpecBuf.writeSeq]
    cases k with
    | zero =>
      rcases SpecBuf.writeSeq_replicate_mem s x m (b.writeAt (j * s) x)
          (j + 1) ((j + 0) * s) with h | h
      · rw [h, SpecBuf.writeAt]
        simp
      · exact h
    | succ k =>
      have hjk : (j + (k + 1)) * s = ((j + 1) + k) * s := by ring_nf
      rw [hjk]
      exact ih (b.writeAt (j * s) x) (j + 1) k (Nat.lt_of_succ_lt_succ hk)

/-- On a freshly constructed buffer over a contract-satisfying backend with a
positive element byte size, `get` returns `None` exactly for indices at or
beyond the element count. -/
theorem Buffer.get_new_none_iff {α β A : Type} (impl : HasBufferImpl α β)
    (s : Nat) (a : A) (N : Nat) (i : Nat) (hs : 0 < s)
    (hread : ∀ off, impl.read (impl.new (N * s)) off = none ↔ N * s ≤ off) :
    (Buffer.new impl s a N).get impl s i = none ↔ N ≤ i := by
  rw [Buffer.get, Buffer.new, hread (i * s)]
  exact mul_le_mul_iff_of_pos_right hs

/-! ### Sample values used by witnesses -/

/-- A color-renderable sample format. -/
def rgba8 : PixelFormat :=
  { id := 0, is_color_renderable := true, is_depth_capable := false }

/-- A second color-renderable sample format. -/
def rgb32f : PixelFormat :=
  { id := 1, is_color_renderable := true, is_depth_capable := false }

/-- A sample pixel type whose associated format is `rgba8`. -/
def ptRGBA8 : PixelType := { PIXEL_FORMAT := rgba8 }

/-- A sample pixel type whose associated format is `rgb32f`. -/
def ptRGB32F : PixelType := { PIXEL_FORMAT := rgb32f }

/-- A sample reification capability: the context counts calls, the state is a
counter handed out as the texture id. -/
def countCap : ReifyCap Nat Nat Nat Unit where
  reify_texture := fun c _ _ s _ => (c + 1, s + 1, s)

/-! ### Claims -/

/-- C1 (amended): for a Buffer of size `N` over a backend whose `read`
returns `None` exactly for offsets outside the region allocated by `new`, and
an element type of NONZERO byte size, `get i` returns a value iff `i < N` and
`None` iff `i ≥ N`.  The nonzero-size hypothesis is necessary: see the
counterexample for zero-sized element types. -/
theorem buffer_get_in_range_iff {α β A : Type} (impl : HasBufferImpl α β)
    (s : Nat) (a : A) (N : Nat) (i : Nat) (hs : 0 < s)
    (hread : ∀ off, impl.read (impl.new (N * s)) off = none ↔ N * s ≤ off) :
    ((∃ v, (Buffer.new impl s a N).get impl s i = some v) ↔ i < N) ∧
      ((Buffer.new impl s a N).get impl s i = none ↔ N ≤ i) := by
  have h := Buffer.get_new_none_iff impl s a N i hs hread
  refine ⟨⟨fun ⟨v, hv⟩ => ?_, fun hi => ?_⟩, h⟩
  · by_contra hlt
    rw [Nat.not_lt] at hlt
    rw [h.mpr hlt] at hv
    exact Option.noConfusion hv
  · cases hg : (Buffer.new impl s a N).get impl s i with
    | none =>
      rw [h] at hg
      omega
    | some v => exact ⟨v, rfl⟩

/-- C1 witness: size 2, element byte size 1, index 1 is readable and not
`None`, over the canonical contract-satisfying backend. -/
theorem buffer_get_in_range_iff_witness :
    ((∃ v, (Buffer.new (specImpl false 1) 1 () 2).get (specImpl false 1) 1 1 =
        some v) ↔ 1 < 2) ∧
      ((Buffer.new (specImpl false 1) 1 () 2).get (specImpl false 1) 1 1 =
        none ↔ 2 ≤ 1) :=
  buffer_get_in_range_iff (specImpl false 1) 1 () 2 1 (by decide)
    (fun off => specImpl_read_contract false 1 (2 * 1) off)

/-- C1 counterexample: for a zero-sized element type (`mem::size_of::<T>() =
0`, legal in Rust), `Buffer::new` allocates `1 * 0 = 0` backend units and
`get 0` reads at offset `0`, which lies outside the empty allocated region,
so `get` returns `None` although `0 < 1`: the claim's "returns a value for
all `0 ≤ i < N`" fails. -/
theorem buffer_get_zst_counterexample :
    Buffer.get (specImpl false 0) 0 (Buffer.new (specImpl false 0) 0 () 1) 0 =
        none ∧
      0 < 1 :=
  ⟨rfl, by decide⟩

/-- C2: `get i` reads the backend at byte offset `i * mem::size_of::<T>()`,
the same scaling `new` uses when it requests `size * mem::size_of::<T>()`
units of storage; and for element byte size at least 2 and `i ≥ 1` the passed
offset differs from the raw index `i`. -/
theorem buffer_get_byte_offset {α β A : Type} (impl : HasBufferImpl α β)
    (s : Nat) (a : A) (N : Nat) (b : Buffer β) (i : Nat) :
    b.get impl s i = impl.read b.repr (i * s) ∧
      (Buffer.new impl s a N).repr = impl.new (N * s) ∧
      (2 ≤ s → 1 ≤ i → i * s ≠ i) := by
  refine ⟨rfl, rfl, fun h2 h1 => ?_⟩
  have hle : i * 2 ≤ i * s := Nat.mul_le_mul_left i h2
  have hlt : i < i * s := by omega
  exact (Nat.ne_of_lt hlt).symm

/-- C2 witness: element byte size 4, index 2 — the backend sees offset 8, not
the raw index 2. -/
theorem buffer_get_byte_offset_witness :
    (Buffer.new (specImpl false 4) 4 () 3).get (specImpl false 4) 4 2 =
        (specImpl false 4).read (Buffer.new (specImpl false 4) 4 () 3).repr
          (2 * 4) ∧
      (Buffer.new (specImpl false 4) 4 () 3).repr =
        (specImpl false 4).new (3 * 4) ∧
      (2 ≤ 4 → 1 ≤ 2 → 2 * 4 ≠ 2) :=
  buffer_get_byte_offset (specImpl false 4) 4 () 3
    (Buffer.new (specImpl false 4) 4 () 3) 2

/-- C3: evaluation at the failing input.  The trait signature
`fn write_whole<T>(buffer: &Self::ABuffer, values: &Vec<T>);` returns `()`,
so a bulk write of 1 value into a buffer allocated for 0 elements completes
without any error value — `BufferError::TooManyValues` cannot be produced by
the interface (its only fallible operation, `write`, can only produce
`Overflow`). -/
theorem write_whole_no_error_channel :
    ((specImpl false 1).write_whole ((specImpl false 1).new 0)
        [true]).byteSize = 0 ∧
      SpecBuf.read_whole 1
        ((specImpl false 1).write_whole ((specImpl false 1).new 0) [true]) =
        [] ∧
      ∀ (b : SpecBuf Bool) (x : Bool) (off : Nat),
        (specImpl false 1).write b x off = Except.ok (b.writeAt off x) ∨
          (specImpl false 1).write b x off =
            Except.error BufferError.Overflow := by
  refine ⟨rfl, rfl, fun b x off => ?_⟩
  by_cases h : off < b.byteSize
  · left
    simp [specImpl, SpecBuf.write, h]
  · right
    simp [specImpl, SpecBuf.write, h]

/-- C7 (amended): indexed access `buffer[i]` agrees with `get i` whenever the
latter returns a value, and panics (`Except.error ()`) exactly when `get i`
returns `None`; over a contract-satisfying backend with NONZERO element byte
size, on a freshly constructed buffer this is exactly when `i ≥ N`.  The
nonzero-size hypothesis is necessary: see the counterexample. -/
theorem buffer_index_panic_iff {α β A : Type} (impl : HasBufferImpl α β)
    (s : Nat) (a : A) (N : Nat) (i : Nat) (hs : 0 < s)
    (hread : ∀ off, impl.read (impl.new (N * s)) off = none ↔ N * s ≤ off) :
    (∀ v, (Buffer.new impl s a N).get impl s i = some v →
        (Buffer.new impl s a N).index impl s i = Except.ok v) ∧
      ((Buffer.new impl s a N).index impl s i = Except.error () ↔
        (Buffer.new impl s a N).get impl s i = none) ∧
      ((Buffer.new impl s a N).index impl s i = Except.error () ↔ N ≤ i) := by
  have hnone := Buffer.get_new_none_iff impl s a N i hs hread
  have herr : (Buffer.new impl s a N).index impl s i = Except.error () ↔
      (Buffer.new impl s a N).get impl s i = none := by
    cases hg : (Buffer.new impl s a N).get impl s i with
    | none => simp [Buffer.index, hg]
    | some v => simp [Buffer.index, hg]
  exact ⟨fun v hv => by simp [Buffer.index, hv], herr, herr.trans hnone⟩

/-- C7 witness: size 2, element byte size 1, index 0 — in range, no panic. -/
theorem buffer_index_panic_iff_witness :
    (∀ v, (Buffer.new (specImpl false 1) 1 () 2).get (specImpl false 1) 1 0 =
        some v →
        (Buffer.new (specImpl false 1) 1 () 2).index (specImpl false 1) 1 0 =
          Except.ok v) ∧
      ((Buffer.new (specImpl false 1) 1 () 2).index (specImpl false 1) 1 0 =
          Except.error () ↔
        (Buffer.new (specImpl false 1) 1 () 2).get (specImpl false 1) 1 0 =
          none) ∧
      ((Buffer.new (specImpl false 1) 1 () 2).index (specImpl false 1) 1 0 =
          Except.error () ↔ 2 ≤ 0) :=
  buffer_index_panic_iff (specImpl false 1) 1 () 2 0 (by decide)
    (fun off => specImpl_read_contract false 1 (2 * 1) off)

/-- C7 counterexample: for a zero-sized element type, `buffer[1]` on a
size-2 buffer panics although `1 < 2`: the claim's "fails fatally exactly
when `i ≥ N`" fails (the panic tracks `get = None`, which here holds at every
index). -/
theorem buffer_index_zst_counterexample :
    Buffer.index (specImpl false 0) 0
        (Buffer.new (specImpl false 0) 0 () 2) 1 = Except.error () ∧
      1 < 2 :=
  ⟨rfl, by decide⟩

/-- C8 (amended): `clear x` is exactly one bulk write (`write_whole`) of
`size` copies of `x`, for any backend and any buffer; and over the canonical
backend with NONZERO element byte size, after clearing a freshly constructed
buffer `get i` returns `x` for every `i < N`.  The nonzero-size hypothesis is
necessary: see the counterexample. -/
theorem buffer_clear_fills {α β A : Type} (impl0 : HasBufferImpl α β)
    (b0 : Buffer β) (d x : α) (s : Nat) (a : A) (N i : Nat) (hs : 0 < s)
    (hi : i < N) :
    Buffer.clear impl0 b0 x =
      { repr := impl0.write_whole b0.repr (List.replicate b0.size x),
        size := b0.size } ∧
      Buffer.get (specImpl d s) s
        (Buffer.clear (specImpl d s) (Buffer.new (specImpl d s) s a N) x) i =
        some x := by
  refine ⟨rfl, ?_⟩
  show SpecBuf.read
      (SpecBuf.write_whole s (SpecBuf.new d (N * s)) (List.replicate N x))
      (i * s) = some x
  have hsize : (SpecBuf.writeSeq s (SpecBuf.new d (N * s)) 0
      (List.replicate N x)).byteSize = N * s := by
    rw [SpecBuf.writeSeq_byteSize]
    rfl
  have hlt : i * s < N * s := (mul_lt_mul_iff_of_pos_right hs).mpr hi
  have hdata : (SpecBuf.writeSeq s (SpecBuf.new d (N * s)) 0
      (List.replicate N x)).data (i * s) = x := by
    have h := SpecBuf.writeSeq_replicate_data s x N (SpecBuf.new d (N * s))
      0 i hi
    simpa using h
  simp [SpecBuf.write_whole, SpecBuf.read, hsize, hlt, hdata]

/-- C8 witness: size 3, element byte size 1, clearing with `true` makes
index 1 read back `true`. -/
theorem buffer_clear_fills_witness :
    Buffer.clear (specImpl false 1) (Buffer.new (specImpl false 1) 1 () 3)
        true =
      { repr := (specImpl false 1).write_whole
          (Buffer.new (specImpl false 1) 1 () 3).repr
          (List.replicate (Buffer.new (specImpl false 1) 1 () 3).size true),
        size := (Buffer.new (specImpl false 1) 1 () 3).size } ∧
      Buffer.get (specImpl false 1) 1
        (Buffer.clear (specImpl false 1)
          (Buffer.new (specImpl false 1) 1 () 3) true) 1 =
        some true :=
  buffer_clear_fills (specImpl false 1)
    (Buffer.new (specImpl false 1) 1 () 3) false true 1 () 3 1 (by decide)
    (by decide)

/-- C8 counterexample: for a zero-sized element type, after `clear true` on a
size-1 buffer, `get 0` returns `None`, not the cleared value: the claim's
"afterwards `get(i)` returns `x` for every `0 ≤ i < N`" fails. -/
theorem buffer_clear_zst_counterexample :
    Buffer.get (specImpl false 0) 0
        (Buffer.clear (specImpl false 0)
          (Buffer.new (specImpl false 0) 0 () 1) true) 0 = none ∧
      0 < 1 :=
  ⟨rfl, by decide⟩

/-- C9: `Buffer::new` is total (it returns a `Buffer`, never an error — this
is visible in the embedding's type), requests exactly `size *
mem::size_of::<T>()` units of backend storage, and records the requested
element count in the `size` field. -/
theorem buffer_new_total {α β A : Type} (impl : HasBufferImpl α β) (s : Nat)
    (a : A) (N : Nat) :
    (Buffer.new impl s a N).size = N ∧
      (Buffer.new impl s a N).repr = impl.new (N * s) :=
  ⟨rfl, rfl⟩

/-- C10: the `size` field is set once by `Buffer::new` and preserved by every
subsequent operation: `clear` (the only operation that touches backend state)
returns a buffer of unchanged `size`; `get` and indexed access take the
buffer by shared reference (`&self`) and are embedded as pure functions that
return no buffer at all, so they cannot alter it. -/
theorem buffer_size_stable {α β A : Type} (impl : HasBufferImpl α β) (s : Nat)
    (a : A) (N : Nat) (b : Buffer β) (x : α) :
    (Buffer.new impl s a N).size = N ∧
      (Buffer.clear impl b x).size = b.size ∧
      (Buffer.clear impl (Buffer.new impl s a N) x).size = N :=
  ⟨rfl, rfl, rfl⟩

/-- C4: for every ColorSlot of arity 1 through 16 (the bare pixel impl and
the macro-generated tuple impls), `COLOR_FORMATS` is the list of the
component pixel types' `PIXEL_FORMAT` constants in exactly the declared
order. -/
theorem color_formats_in_order (ps : List PixelType) (h1 : 1 ≤ ps.length)
    (h16 : ps.length ≤ 16) :
    COLOR_FORMATS ps = ps.map (fun p => p.PIXEL_FORMAT) := by
  match ps with
  | [] => simp at h1
  | [p] => rfl
  | p :: q :: r => rfl

/-- C4 witness: the two-format slot `(rgba8, rgb32f)` publishes
`[rgba8, rgb32f]` in that order. -/
theorem color_formats_in_order_witness :
    1 ≤ ([ptRGBA8, ptRGB32F] : List PixelType).length ∧
      ([ptRGBA8, ptRGB32F] : List PixelType).length ≤ 16 ∧
      COLOR_FORMATS [ptRGBA8, ptRGB32F] =
        ([ptRGBA8, ptRGB32F] : List PixelType).map
          (fun p => p.PIXEL_FORMAT) :=
  ⟨by decide, by decide,
    color_formats_in_order [ptRGBA8, ptRGB32F] (by decide) (by decide)⟩

/-- C5: for every tuple ColorSlot (arity at least 2), `reify_textures`
invokes the reification capability exactly once per format in list order (the
call log of the tracing wrapper equals the format list, and the wrapper does
not disturb the computed textures), produces one texture per format, and the
i-th returned texture is the output of the capability call made for the i-th
format, in the context and state reached after the calls for the preceding
formats. -/
theorem tuple_reify_once_per_format_in_order {Ctx St Tex Size : Type}
    (cap : ReifyCap Ctx St Tex Size) (ctx : Ctx) (size : Size) (mm : Nat)
    (st : St) (ps : List PixelType) (_h2 : 2 ≤ ps.length) :
    (reify_textures (traceCap cap) ctx size mm (st, []) ps).2.1.2 = ps ∧
      (reify_textures (traceCap cap) ctx size mm (st, []) ps).2.2 =
        (reify_textures cap ctx size mm st ps).2.2 ∧
      (reify_textures cap ctx size mm st ps).2.2.length = ps.length ∧
      ∀ (i : Nat) (h : i < ps.length)
        (hl : i < (reify_textures cap ctx size mm st ps).2.2.length),
        (reify_textures cap ctx size mm st ps).2.2.get ⟨i, hl⟩ =
          (cap.reify_texture
            (reify_textures cap ctx size mm st (ps.take i)).1 size mm
            (reify_textures cap ctx size mm st (ps.take i)).2.1
            (ps.get ⟨i, h⟩)).2.2 := by
  refine ⟨?_, ?_, reify_textures_length cap ctx size mm st ps,
    fun i h hl => reify_textures_get cap ctx size mm st ps i h hl⟩
  · rw [reify_textures_traceCap]
    simp
  · rw [reify_textures_traceCap]

/-- C5 witness: the pair slot `(rgba8, rgb32f)` under the counting
capability. -/
theorem tuple_reify_once_per_format_in_order_witness :
    (reify_textures (traceCap countCap) 0 () 1 (0, [])
        [ptRGBA8, ptRGB32F]).2.1.2 = [ptRGBA8, ptRGB32F] ∧
      (reify_textures (traceCap countCap) 0 () 1 (0, [])
          [ptRGBA8, ptRGB32F]).2.2 =
        (reify_textures countCap 0 () 1 0 [ptRGBA8, ptRGB32F]).2.2 ∧
      (reify_textures countCap 0 () 1 0 [ptRGBA8, ptRGB32F]).2.2.length =
        ([ptRGBA8, ptRGB32F] : List PixelType).length ∧
      ∀ (i : Nat) (h : i < ([ptRGBA8, ptRGB32F] : List PixelType).length)
        (hl : i <
          (reify_textures countCap 0 () 1 0 [ptRGBA8, ptRGB32F]).2.2.length),
        (reify_textures countCap 0 () 1 0 [ptRGBA8, ptRGB32F]).2.2.get
            ⟨i, hl⟩ =
          (countCap.reify_texture
            (reify_textures countCap 0 () 1 0
              (([ptRGBA8, ptRGB32F] : List PixelType).take i)).1 () 1
            (reify_textures countCap 0 () 1 0
              (([ptRGBA8, ptRGB32F] : List PixelType).take i)).2.1
            (([ptRGBA8, ptRGB32F] : List PixelType).get ⟨i, h⟩)).2.2 :=
  tuple_reify_once_per_format_in_order countCap 0 () 1 0
    [ptRGBA8, ptRGB32F] (by decide)

/-- C6: the Empty (unit) ColorSlot and DepthSlot never invoke the reification
capability — under the tracing wrapper the call log stays empty and the
context and backend state are returned untouched — the Empty ColorSlot yields
the empty texture result and publishes an empty `COLOR_FORMATS`, and the
Empty DepthSlot yields no texture and publishes `DEPTH_FORMAT = None`. -/
theorem empty_slot_never_reifies {Ctx St Tex Size : Type}
    (cap : ReifyCap Ctx St Tex Size) (ctx : Ctx) (size : Size) (mm : Nat)
    (st : St) :
    reify_textures (traceCap cap) ctx size mm (st, []) [] =
        (ctx, (st, []), ([] : List Tex)) ∧
      depth_reify_texture (traceCap cap) ctx size mm (st, []) none =
        (ctx, (st, []), (none : Option Tex)) ∧
      COLOR_FORMATS [] = [] ∧ DEPTH_FORMAT none = none :=
  ⟨rfl, rfl, rfl, rfl⟩

end Luminance
